import Mathlib

/-!
# The 6502 core of the NES emulator (`CPU.cpp`)

A shallow embedding of `CPU.cpp`: the register file, the register views
(`RegisterAccess<R>`), the addressing-mode resolver (`getMemory<M>`), the
add-with-carry handler (`opADC<M>`) and the opcode table built by the
constructor.

Machine integers are natural numbers; every conversion to `uint8_t` is an
explicit `% 256` and every conversion to `uint16_t` an explicit `% 65536`.
-/

namespace NES

/-! ## Data model -/

/-- The template parameter of `RegisterAccess`. -/
inductive Register where
  | REGISTER_A
  | REGISTER_X
  | REGISTER_Y
  | REGISTER_S
  | REGISTER_PC
  | REGISTER_P
  deriving DecidableEq, Repr

/-- The template parameter of `getMemory` and of the opcode handlers: the
eleven labels of the `switch` in `CPU::getMemory`. -/
inductive MemoryAddressingMode where
  | MEM_IMMEDIATE
  | MEM_ABSOLUTE
  | MEM_ZERO_PAGE_ABSOLUTE
  | MEM_INDEXED_X
  | MEM_INDEXED_Y
  | MEM_ZERO_PAGE_INDEXED_X
  | MEM_ZERO_PAGE_INDEXED_Y
  | MEM_INDIRECT
  | MEM_PRE_INDEXED_INDIRECT
  | MEM_POST_INDEXED_INDIRECT
  | MEM_RELATIVE
  deriving DecidableEq, Repr

/-- Modelled from the spec: the status register `registers.p` (declared in
`CPU.hpp`, which is not among the sources). One field per flag bit, in the
order the spec lists the packed bits: carry, zero, interrupt-disable,
decimal-mode, break, the reserved bit, overflow, sign. -/
structure StatusRegister where
  carry : Bool
  zero : Bool
  interrupt : Bool
  decimal : Bool
  brk : Bool
  unused : Bool
  overflow : Bool
  sign : Bool
  deriving DecidableEq, Repr

/-- Modelled from the spec: the whole-byte view `registers.p.raw` of the
status register (the union is declared in `CPU.hpp`), carry in bit 0 up to
sign in bit 7. -/
def StatusRegister.raw (p : StatusRegister) : Nat :=
  (if p.carry then 1 else 0) + (if p.zero then 2 else 0)
    + (if p.interrupt then 4 else 0) + (if p.decimal then 8 else 0)
    + (if p.brk then 16 else 0) + (if p.unused then 32 else 0)
    + (if p.overflow then 64 else 0) + (if p.sign then 128 else 0)

/-- Modelled from the spec: storing a byte into `registers.p.raw` sets the
eight flag bits to the bits of the byte. -/
def StatusRegister.ofRaw (value : Nat) : StatusRegister :=
  { carry := value % 2 = 1
    zero := value / 2 % 2 = 1
    interrupt := value / 4 % 2 = 1
    decimal := value / 8 % 2 = 1
    brk := value / 16 % 2 = 1
    unused := value / 32 % 2 = 1
    overflow := value / 64 % 2 = 1
    sign := value / 128 % 2 = 1 }

/-- The register file `CPU::Registers`: `a`, `x`, `y`, `s` are bytes, `pc`
is the 16-bit word `pc.w` (its low byte is `pc.l`), `p` the status
register. -/
structure Registers where
  a : Nat
  x : Nat
  y : Nat
  s : Nat
  pc : Nat
  p : StatusRegister
  deriving DecidableEq, Repr

/-- Every register holds a value of its machine width. -/
def Registers.WellFormed (r : Registers) : Prop :=
  r.a < 256 ∧ r.x < 256 ∧ r.y < 256 ∧ r.s < 256 ∧ r.pc < 65536

instance (r : Registers) : Decidable r.WellFormed := by
  unfold Registers.WellFormed; infer_instance

/-- The bus behind `nes.getMemory()`. Its class is an external collaborator
(not among the sources), so its two read operations are taken as
parameters. -/
structure Memory where
  byteAt : Nat → Nat
  wordAt : Nat → Nat

/-- The call `readByte(address)`: a 16-bit address in, a byte out. -/
def Memory.readByte (m : Memory) (address : Nat) : Nat :=
  m.byteAt (address % 65536) % 256

/-- The call `readWord(address)`: a 16-bit address in, a 16-bit word out. -/
def Memory.readWord (m : Memory) (address : Nat) : Nat :=
  m.wordAt (address % 65536) % 65536

/-- Modelled from the spec: the bus access proxy `MemoryAccess` (its class is
not among the sources), built by `MemoryAccess(memory, address)` from a
16-bit bus address. -/
structure MemoryAccess where
  address : Nat
  deriving DecidableEq, Repr

/-- The constructor `MemoryAccess(nes.getMemory(), address)`: the argument
is converted to the 16-bit address type. -/
def MemoryAccess.new (address : Nat) : MemoryAccess :=
  { address := address % 65536 }

/-- Modelled from the spec: reading through the proxy (`src` used as a
number) reads the byte at the resolved address. -/
def MemoryAccess.read (src : MemoryAccess) (m : Memory) : Nat :=
  m.readByte src.address

/-- A member-function pointer stored in the opcode table. The only handler
template of the file is `opADC<M>`. -/
inductive Handler where
  | opADC (M : MemoryAddressingMode)
  deriving DecidableEq, Repr

/-- One slot of `opcodes[0x100]`: not yet written, `nullptr`, or a
handler. -/
inductive OpcodeEntry where
  | uninitialised
  | null
  | bound (h : Handler)
  deriving DecidableEq, Repr

/-- The state of a `CPU` object: its registers, the bus it refers to and
its opcode table. -/
structure CPU where
  registers : Registers
  memory : Memory
  opcodes : List OpcodeEntry

/-! ## Register views -/

/-- The assignment `RegisterAccess<R>::operator = (uint8_t value)`. -/
def RegisterAccess.assign (R : Register) (registers : Registers) (value : Nat) :
    Registers :=
  match R with
  | .REGISTER_A => { registers with a := value % 256 }
  | .REGISTER_X => { registers with x := value % 256 }
  | .REGISTER_Y => { registers with y := value % 256 }
  | .REGISTER_S => { registers with s := value % 256 }
  | .REGISTER_PC => { registers with pc := registers.pc / 256 * 256 + value % 256 }
  | .REGISTER_P => { registers with p := StatusRegister.ofRaw (value % 256) }

/-- The conversion `RegisterAccess<R>::operator uint8_t()`. -/
def RegisterAccess.read (R : Register) (registers : Registers) : Nat :=
  match R with
  | .REGISTER_A => registers.a
  | .REGISTER_X => registers.x
  | .REGISTER_Y => registers.y
  | .REGISTER_S => registers.s
  | .REGISTER_PC => registers.pc % 256
  | .REGISTER_P => registers.p.raw

/-! ## Flags -/

/-- Modelled from the spec: the constant `BIT_7` (defined in a header that
is not among the sources), the mask of bit 7. -/
def BIT_7 : Nat := 0x80

/-- The function `CPU::setSign( uint8_t value )`. -/
def CPU.setSign (cpu : CPU) (value : Nat) : CPU :=
  { cpu with registers := { cpu.registers with
      p := { cpu.registers.p with sign := ((value % 256) &&& BIT_7) ≠ 0 } } }

/-- The function `CPU::setZero( uint8_t value )`. -/
def CPU.setZero (cpu : CPU) (value : Nat) : CPU :=
  { cpu with registers := { cpu.registers with
      p := { cpu.registers.p with zero := value % 256 = 0 } } }

/-! ## Operand fetch and the addressing-mode resolver -/

/-- The function `CPU::getImmediate8()`: the byte at `pc`, then `pc++`. -/
def CPU.getImmediate8 (cpu : CPU) : Nat × CPU :=
  let value := cpu.memory.readByte cpu.registers.pc
  (value, { cpu with registers := { cpu.registers with
      pc := (cpu.registers.pc + 1) % 65536 } })

/-- The function `CPU::getImmediate16()`: the word at `pc`, then `pc += 2`. -/
def CPU.getImmediate16 (cpu : CPU) : Nat × CPU :=
  let value := cpu.memory.readWord cpu.registers.pc
  (value, { cpu with registers := { cpu.registers with
      pc := (cpu.registers.pc + 2) % 65536 } })

/-- The function `CPU::getMemory<M>()`: the operand proxy and the CPU with
its program counter advanced. Sums are formed in `int` and converted to the
16-bit address parameter of the callee. -/
def CPU.getMemory (M : MemoryAddressingMode) (cpu : CPU) : MemoryAccess × CPU :=
  match M with
  | .MEM_IMMEDIATE =>
    let pc := cpu.registers.pc
    (MemoryAccess.new pc, { cpu with registers := { cpu.registers with
      pc := (cpu.registers.pc + 1) % 65536 } })
  | .MEM_ABSOLUTE =>
    let (w, cpu1) := cpu.getImmediate16
    (MemoryAccess.new w, cpu1)
  | .MEM_ZERO_PAGE_ABSOLUTE =>
    let (b, cpu1) := cpu.getImmediate8
    (MemoryAccess.new b, cpu1)
  | .MEM_INDEXED_X =>
    let (w, cpu1) := cpu.getImmediate16
    (MemoryAccess.new (w + cpu1.registers.x), cpu1)
  | .MEM_INDEXED_Y =>
    let (w, cpu1) := cpu.getImmediate16
    (MemoryAccess.new (w + cpu1.registers.y), cpu1)
  | .MEM_ZERO_PAGE_INDEXED_X =>
    let (b, cpu1) := cpu.getImmediate8
    (MemoryAccess.new (b + cpu1.registers.x), cpu1)
  | .MEM_ZERO_PAGE_INDEXED_Y =>
    let (b, cpu1) := cpu.getImmediate8
    (MemoryAccess.new (b + cpu1.registers.y), cpu1)
  | .MEM_INDIRECT =>
    let (w, cpu1) := cpu.getImmediate16
    (MemoryAccess.new (cpu1.memory.readWord w), cpu1)
  | .MEM_PRE_INDEXED_INDIRECT =>
    let (b, cpu1) := cpu.getImmediate8
    (MemoryAccess.new (cpu1.memory.readWord (b + cpu1.registers.x)), cpu1)
  | .MEM_POST_INDEXED_INDIRECT =>
    let (b, cpu1) := cpu.getImmediate8
    (MemoryAccess.new (cpu1.memory.readWord b + cpu1.registers.y), cpu1)
  | .MEM_RELATIVE =>
    let (offset, cpu1) := cpu.getImmediate8
    if offset < 0x80 then
      let (b, cpu2) := cpu1.getImmediate8
      (MemoryAccess.new (b + offset), cpu2)
    else
      let (b, cpu2) := cpu1.getImmediate8
      (MemoryAccess.new (((b : Int) + (offset : Int) - 0x100) % 65536).toNat, cpu2)

/-! ## Add with carry -/

/-- The assignment `registers.p.overflow = value`. -/
def CPU.setOverflow (cpu : CPU) (value : Bool) : CPU :=
  { cpu with registers := { cpu.registers with
      p := { cpu.registers.p with overflow := value } } }

/-- The assignment `registers.p.carry = value`. -/
def CPU.setCarry (cpu : CPU) (value : Bool) : CPU :=
  { cpu with registers := { cpu.registers with
      p := { cpu.registers.p with carry := value } } }

/-- The assignment `registers.a = (uint8_t)value`. -/
def CPU.setA (cpu : CPU) (value : Nat) : CPU :=
  { cpu with registers := { cpu.registers with a := value % 256 } }

/-- The handler `CPU::opADC<M>()`. The local `temp` is a `uint16_t`; `src`
is read through the proxy each time it is used as a number. -/
def CPU.opADC (M : MemoryAddressingMode) (cpu : CPU) : CPU :=
  let (src, cpu1) := cpu.getMemory M
  let o := src.read cpu1.memory
  let a := cpu1.registers.a
  let c := if cpu1.registers.p.carry then 1 else 0
  let temp := (o + a + c) % 65536
  let cpu2 := cpu1.setZero (temp &&& 0xff)
  if cpu2.registers.p.decimal then
    let temp1 := if ((a &&& 0xf) + (o &&& 0xf) + c) > 9 then (temp + 6) % 65536 else temp
    let cpu3 := cpu2.setSign temp1
    let cpu4 := cpu3.setOverflow
      (decide (((a ^^^ o) &&& 0x80) = 0) && decide (((a ^^^ temp1) &&& 0x80) ≠ 0))
    let temp2 := if temp1 > 0x99 then (temp1 + 96) % 65536 else temp1
    let cpu5 := cpu4.setCarry (decide (temp2 > 0x99))
    cpu5.setA temp2
  else
    let cpu3 := cpu2.setSign temp
    let cpu4 := cpu3.setOverflow
      (decide (((a ^^^ o) &&& 0x80) = 0) && decide (((a ^^^ temp) &&& 0x80) ≠ 0))
    let cpu5 := cpu4.setCarry (decide (temp > 0xff))
    cpu5.setA temp

/-! ## The constructor and the opcode table -/

/-- The initialisation loop `for( int i = 0; i < 0x100; i++ ) opcodes[i] = nullptr;`
run on a table from index `i` for `n` more iterations. -/
def CPU.clearOpcodes : Nat → Nat → List OpcodeEntry → List OpcodeEntry
  | 0, _, opcodes => opcodes
  | n + 1, i, opcodes => CPU.clearOpcodes n (i + 1) (opcodes.set i OpcodeEntry.null)

/-- The opcode table as the constructor `CPU::CPU` leaves it: the 256-slot
array, first cleared by the loop, then the eight assignments in source
order. -/
def CPU.buildOpcodes : List OpcodeEntry :=
  let opcodes := List.replicate 0x100 OpcodeEntry.uninitialised
  let opcodes := CPU.clearOpcodes 0x100 0 opcodes
  let opcodes := opcodes.set 0x69 (.bound (.opADC .MEM_IMMEDIATE))
  let opcodes := opcodes.set 0x65 (.bound (.opADC .MEM_ZERO_PAGE_ABSOLUTE))
  let opcodes := opcodes.set 0x75 (.bound (.opADC .MEM_ZERO_PAGE_INDEXED_X))
  let opcodes := opcodes.set 0x60 (.bound (.opADC .MEM_ABSOLUTE))
  let opcodes := opcodes.set 0x70 (.bound (.opADC .MEM_INDEXED_X))
  let opcodes := opcodes.set 0x79 (.bound (.opADC .MEM_INDEXED_Y))
  let opcodes := opcodes.set 0x61 (.bound (.opADC .MEM_PRE_INDEXED_INDIRECT))
  let opcodes := opcodes.set 0x71 (.bound (.opADC .MEM_POST_INDEXED_INDIRECT))
  opcodes

/-- The constructor `CPU::CPU( NES& nes )`. It does not initialise the
register file, whose contents at construction are passed in. -/
def CPU.new (memory : Memory) (registers : Registers) : CPU :=
  { registers := registers, memory := memory, opcodes := CPU.buildOpcodes }

/-- Running a bound handler. -/
def Handler.run : Handler → CPU → CPU
  | .opADC M, cpu => cpu.opADC M

/-- The legal 6502 encodings of add-with-carry, with their addressing
modes (the reference the opcode table is compared with). -/
def legalADC : List (Nat × MemoryAddressingMode) :=
  [ (0x69, .MEM_IMMEDIATE), (0x65, .MEM_ZERO_PAGE_ABSOLUTE),
    (0x75, .MEM_ZERO_PAGE_INDEXED_X), (0x6D, .MEM_ABSOLUTE),
    (0x7D, .MEM_INDEXED_X), (0x79, .MEM_INDEXED_Y),
    (0x61, .MEM_PRE_INDEXED_INDIRECT), (0x71, .MEM_POST_INDEXED_INDIRECT) ]

/-- The condition reported when a slot without a handler is looked up. -/
inductive StepError where
  | unimplementedOpcode (opcode : Nat) (pc : Nat)
  deriving DecidableEq, Repr

/-- Modelled from the spec: executing one instruction (the dispatch function
is not in `CPU.cpp`). The opcode byte is read by a raw 8-bit immediate fetch
(`PC++`), its table slot is looked up, and a bound handler is invoked; a slot
with no bound handler is reported as an unimplemented opcode carrying the
byte and the program counter as it stands at the report. -/
def CPU.step (cpu : CPU) : Except StepError CPU :=
  let (opcode, cpu1) := cpu.getImmediate8
  match cpu1.opcodes[opcode]? with
  | some (.bound h) => .ok (h.run cpu1)
  | _ => .error (.unimplementedOpcode opcode cpu1.registers.pc)

/-! ## Reference notions used in the statements -/

/-- The operand byte count of each addressing mode, as tabulated in the
specification of the resolver. -/
def operandBytes : MemoryAddressingMode → Nat
  | .MEM_IMMEDIATE => 1
  | .MEM_ZERO_PAGE_ABSOLUTE => 1
  | .MEM_ZERO_PAGE_INDEXED_X => 1
  | .MEM_ZERO_PAGE_INDEXED_Y => 1
  | .MEM_PRE_INDEXED_INDIRECT => 1
  | .MEM_POST_INDEXED_INDIRECT => 1
  | .MEM_ABSOLUTE => 2
  | .MEM_INDEXED_X => 2
  | .MEM_INDEXED_Y => 2
  | .MEM_INDIRECT => 2
  | .MEM_RELATIVE => 2

/-- A valid two-digit BCD byte: both nibbles are decimal digits. -/
def isBCD (b : Nat) : Prop := b / 16 ≤ 9 ∧ b % 16 ≤ 9

instance (b : Nat) : Decidable (isBCD b) := by unfold isBCD; infer_instance

/-- The decimal value (0..99) a BCD byte denotes. -/
def bcdValue (b : Nat) : Nat := 10 * (b / 16) + b % 16

/-- The BCD byte encoding a decimal value in 0..99. -/
def bcdEncode (n : Nat) : Nat := 16 * (n / 10) + n % 10

/-- The carry-in as a number. -/
def carryIn (cpu : CPU) : Nat := if cpu.registers.p.carry then 1 else 0

/-- The operand byte `opADC<M>` reads: the byte behind the proxy that
`getMemory<M>` resolves. -/
def operand (M : MemoryAddressingMode) (cpu : CPU) : Nat :=
  (cpu.getMemory M).1.read (cpu.getMemory M).2.memory

/-- A sample bus: `bytes` from address 0 on, zero elsewhere; words are
little-endian. -/
def sampleMemory (bytes : List Nat) : Memory :=
  { byteAt := fun address => bytes.getD address 0
    wordAt := fun address => bytes.getD address 0 + 256 * bytes.getD (address + 1) 0 }

/-- A sample register file. -/
def sampleRegisters (a x y pc : Nat) (carry decimal : Bool) : Registers :=
  { a := a, x := x, y := y, s := 0xFF, pc := pc,
    p := { carry := carry, zero := false, interrupt := false, decimal := decimal,
           brk := false, unused := true, overflow := false, sign := false } }

/-- A sample CPU over a sample bus. -/
def sampleCPU (bytes : List Nat) (a x y pc : Nat) (carry decimal : Bool) : CPU :=
  CPU.new (sampleMemory bytes) (sampleRegisters a x y pc carry decimal)

/-- The value of `temp` in decimal mode after the low-nibble correction. -/
def decimalLow (a o c : Nat) : Nat :=
  if (a &&& 0xf) + (o &&& 0xf) + c > 9 then ((o + a + c) % 65536 + 6) % 65536
  else (o + a + c) % 65536

/-- The value of `temp` in decimal mode after the high correction. -/
def decimalHigh (a o c : Nat) : Nat :=
  if decimalLow a o c > 0x99 then (decimalLow a o c + 96) % 65536 else decimalLow a o c

/-- A bus on which every byte reads `0xFF` and every word reads as its own
address, so that a resolved pointer shows where it was fetched from. -/
def probeMemory : Memory :=
  { byteAt := fun _ => 0xFF, wordAt := fun address => address }

/-- An 8-bit value read as a signed displacement. -/
def signed8 (d : Nat) : Int := if d < 0x80 then (d : Int) else (d : Int) - 0x100

/-- The slot holds the `nullptr` written by the initialisation loop. -/
def OpcodeEntry.isNull : OpcodeEntry → Bool
  | .null => true
  | _ => false

/-- The slot holds a handler. -/
def OpcodeEntry.isBound : OpcodeEntry → Bool
  | .bound _ => true
  | _ => false

/-- The slot was never written. -/
def OpcodeEntry.isUninitialised : OpcodeEntry → Bool
  | .uninitialised => true
  | _ => false

/-- The intermediate value of decimal-mode add-with-carry as the
specification words it: `a + o + c`, plus 6 when the low-nibble partial sum
exceeds 9. -/
def decimalIntermediate (a o c : Nat) : Nat :=
  a + o + c + (if (a &&& 0xF) + (o &&& 0xF) + c > 9 then 6 else 0)

/-! ## Frame lemmas for the resolver -/

theorem getMemory_snd (M : MemoryAddressingMode) (cpu : CPU) :
    (cpu.getMemory M).2 = { cpu with registers := { cpu.registers with
      pc := (cpu.registers.pc + operandBytes M) % 65536 } } := by
  cases M <;> simp [CPU.getMemory, CPU.getImmediate8, CPU.getImmediate16, operandBytes]
  split <;> simp

theorem and_0x80_eq_zero (v : Nat) : (v &&& 0x80 = 0) ↔ v / 128 % 2 = 0 := by
  have h := Nat.and_two_pow v 7
  have h2 := @Nat.testBit_to_div_mod 7 v
  norm_num at h h2
  rw [h, h2]
  by_cases hb : v / 128 % 2 = 1 <;> simp [hb]
  omega

theorem xor_bit7 (v w : Nat) : (v ^^^ w) / 128 % 2 = (v / 128 % 2 + w / 128 % 2) % 2 := by
  have h := Nat.testBit_xor v w 7
  simp only [Nat.testBit_to_div_mod] at h
  norm_num at h
  by_cases h1 : v / 128 % 2 = 1 <;> by_cases h2 : w / 128 % 2 = 1 <;>
    simp [h1, h2] at h <;> omega

/-- The register file after `opADC<M>` with the decimal flag clear, in terms
of the operand byte, the accumulator and the carry-in before the call. -/
theorem opADC_binary_registers (M : MemoryAddressingMode) (cpu : CPU)
    (hd : cpu.registers.p.decimal = false) :
    (cpu.opADC M).registers =
      { cpu.registers with
        pc := (cpu.registers.pc + operandBytes M) % 65536
        a := (operand M cpu + cpu.registers.a + carryIn cpu) % 65536 % 256
        p := { cpu.registers.p with
          zero := decide (((operand M cpu + cpu.registers.a + carryIn cpu) % 65536 &&& 0xff) % 256 = 0)
          sign := decide ((((operand M cpu + cpu.registers.a + carryIn cpu) % 65536 % 256) &&& BIT_7) ≠ 0)
          overflow := (decide (((cpu.registers.a ^^^ operand M cpu) &&& 0x80) = 0) &&
            decide (((cpu.registers.a ^^^ (operand M cpu + cpu.registers.a + carryIn cpu) % 65536) &&& 0x80) ≠ 0))
          carry := decide ((operand M cpu + cpu.registers.a + carryIn cpu) % 65536 > 0xff) } } := by
  rcases h : cpu.getMemory M with ⟨src, cpu1⟩
  have h2 := getMemory_snd M cpu
  rw [h] at h2
  simp only at h2
  subst h2
  simp [CPU.opADC, h, operand, carryIn, CPU.setZero, CPU.setSign, CPU.setOverflow,
    CPU.setCarry, CPU.setA, hd]

theorem testBit7 (v : Nat) : v.testBit 7 = decide (v / 128 % 2 = 1) := by
  have h := @Nat.testBit_to_div_mod 7 v
  norm_num at h
  simpa using h

theorem and_bit7 (v w : Nat) : (v &&& w) / 128 % 2 = (v / 128 % 2) * (w / 128 % 2) := by
  have h := Nat.testBit_and v w 7
  rw [testBit7, testBit7, testBit7] at h
  rcases Nat.mod_two_eq_zero_or_one (v / 128) with h1 | h1 <;>
  rcases Nat.mod_two_eq_zero_or_one (w / 128) with h2 | h2 <;>
  rcases Nat.mod_two_eq_zero_or_one ((v &&& w) / 128) with h3 | h3 <;>
  simp [h1, h2, h3] at h ⊢

theorem and_0xff (v : Nat) : v &&& 0xff = v % 256 := by
  have h := Nat.and_pow_two_sub_one_eq_mod v 8
  norm_num at h
  exact h

theorem operand_lt (M : MemoryAddressingMode) (cpu : CPU) : operand M cpu < 256 := by
  unfold operand MemoryAccess.read Memory.readByte
  exact Nat.mod_lt _ (by decide)

theorem carryIn_le (cpu : CPU) : carryIn cpu ≤ 1 := by
  unfold carryIn
  split <;> omega

/-- C1: with the decimal flag clear, for every addressing mode, accumulator
`a`, operand byte `o` and carry-in `c`, `opADC` leaves `(a + o + c) mod 256`
in the accumulator and sets the carry flag exactly when `a + o + c > 255`,
so that `A' + 256 * carry' = a + o + c`. -/
theorem opADC_binary_sum_carry (M : MemoryAddressingMode) (cpu : CPU)
    (ha : cpu.registers.a < 256) (hd : cpu.registers.p.decimal = false) :
    (cpu.opADC M).registers.a = (cpu.registers.a + operand M cpu + carryIn cpu) % 256 ∧
    ((cpu.opADC M).registers.p.carry = true ↔
      cpu.registers.a + operand M cpu + carryIn cpu > 255) ∧
    (cpu.opADC M).registers.a + 256 * carryIn (cpu.opADC M) =
      cpu.registers.a + operand M cpu + carryIn cpu := by
  have ho := operand_lt M cpu
  have hc := carryIn_le cpu
  have hr := opADC_binary_registers M cpu hd
  have hcarry : carryIn (cpu.opADC M) =
      if cpu.registers.a + operand M cpu + carryIn cpu > 255 then 1 else 0 := by
    have hci : carryIn (cpu.opADC M) =
        if (cpu.opADC M).registers.p.carry = true then 1 else 0 := rfl
    rw [hci, hr]
    simp only [decide_eq_true_eq]
    split <;> split <;> omega
  refine ⟨?_, ?_, ?_⟩
  · rw [hr]; simp only; omega
  · rw [hr]; simp only [decide_eq_true_eq]; omega
  · rw [hcarry, hr]; simp only; split <;> omega

/-- Witness of C1: `A = 0xFF`, operand `0x01`, carry clear, immediate mode
gives `A = 0x00` with the carry set. -/
theorem opADC_binary_sum_carry_witness :
    ((sampleCPU [0x01] 0xFF 0 0 0 false false).opADC .MEM_IMMEDIATE).registers.a = 0x00 ∧
    ((sampleCPU [0x01] 0xFF 0 0 0 false false).opADC .MEM_IMMEDIATE).registers.p.carry
      = true :=
  have h := opADC_binary_sum_carry .MEM_IMMEDIATE (sampleCPU [0x01] 0xFF 0 0 0 false false)
    (by decide) rfl
  ⟨h.1.trans (by decide), h.2.1.mpr (by decide)⟩

/-- C2: with the decimal flag clear, after `opADC` the overflow flag is set
exactly when `(~(a XOR o) & (a XOR result) & 0x80) != 0`, where `result` is
the new accumulator value `(a + o + c) mod 256` (the complement taken on a
byte). -/
theorem opADC_binary_overflow (M : MemoryAddressingMode) (cpu : CPU)
    (hd : cpu.registers.p.decimal = false) :
    (cpu.opADC M).registers.a = (cpu.registers.a + operand M cpu + carryIn cpu) % 256 ∧
    ((cpu.opADC M).registers.p.overflow = true ↔
      ((0xFF ^^^ (cpu.registers.a ^^^ operand M cpu)) &&&
        (cpu.registers.a ^^^ (cpu.opADC M).registers.a) &&& 0x80) ≠ 0) := by
  have hr := opADC_binary_registers M cpu hd
  refine ⟨?_, ?_⟩
  · rw [hr]; simp only; omega
  · rw [hr]
    simp only [Bool.and_eq_true, decide_eq_true_eq, ne_eq, and_0x80_eq_zero, and_bit7,
      xor_bit7]
    generalize cpu.registers.a = a
    generalize operand M cpu = o
    generalize carryIn cpu = c
    have e1 : (o + a + c) % 65536 % 256 / 128 % 2 = (o + a + c) % 65536 / 128 % 2 := by
      omega
    rw [e1]
    generalize (o + a + c) % 65536 / 128 % 2 = t
    have h255 : 255 / 128 % 2 = 1 := by decide
    rw [h255]
    rcases Nat.mod_two_eq_zero_or_one (a / 128) with h1 | h1 <;>
    rcases Nat.mod_two_eq_zero_or_one (o / 128) with h2 | h2 <;>
    rcases Nat.mod_two_eq_zero_or_one t with h3 | h3 <;>
    simp [h1, h2, h3]

/-- Witness of C2: `A = 0x50`, operand `0x10`, carry clear gives overflow
clear; `A = 0xFF`, operand `0x01`, carry clear gives overflow clear. -/
theorem opADC_binary_overflow_witness :
    ((sampleCPU [0x10] 0x50 0 0 0 false false).opADC .MEM_IMMEDIATE).registers.p.overflow
      = false ∧
    ((sampleCPU [0x01] 0xFF 0 0 0 false false).opADC .MEM_IMMEDIATE).registers.p.overflow
      = false :=
  have h1 := (opADC_binary_overflow .MEM_IMMEDIATE
    (sampleCPU [0x10] 0x50 0 0 0 false false) rfl).2
  have h2 := (opADC_binary_overflow .MEM_IMMEDIATE
    (sampleCPU [0x01] 0xFF 0 0 0 false false) rfl).2
  ⟨Bool.eq_false_iff.mpr (fun h => h1.mp h (by decide)),
   Bool.eq_false_iff.mpr (fun h => h2.mp h (by decide))⟩

/-- C3: with the decimal flag clear, after `opADC` the zero flag is set
exactly when the new accumulator value is 0, and the sign flag equals bit 7
of the new accumulator value. -/
theorem opADC_binary_zero_sign (M : MemoryAddressingMode) (cpu : CPU)
    (hd : cpu.registers.p.decimal = false) :
    ((cpu.opADC M).registers.p.zero = true ↔ (cpu.opADC M).registers.a = 0) ∧
    (cpu.opADC M).registers.p.sign = (cpu.opADC M).registers.a.testBit 7 := by
  have hr := opADC_binary_registers M cpu hd
  rw [hr]
  simp only [decide_eq_true_eq, and_0xff, BIT_7, testBit7, ne_eq, and_0x80_eq_zero]
  refine ⟨by omega, ?_⟩
  congr 1
  apply propext
  omega

/-- Witness of C3: `A = 0x50`, operand `0x10`, carry clear gives sign and
zero clear; `A = 0xFF`, operand `0x01`, carry clear gives zero set and sign
clear. -/
theorem opADC_binary_zero_sign_witness :
    ((sampleCPU [0x10] 0x50 0 0 0 false false).opADC .MEM_IMMEDIATE).registers.p.zero
      = false ∧
    ((sampleCPU [0x10] 0x50 0 0 0 false false).opADC .MEM_IMMEDIATE).registers.p.sign
      = false ∧
    ((sampleCPU [0x01] 0xFF 0 0 0 false false).opADC .MEM_IMMEDIATE).registers.p.zero
      = true ∧
    ((sampleCPU [0x01] 0xFF 0 0 0 false false).opADC .MEM_IMMEDIATE).registers.p.sign
      = false :=
  have h1 := opADC_binary_zero_sign .MEM_IMMEDIATE
    (sampleCPU [0x10] 0x50 0 0 0 false false) rfl
  have h2 := opADC_binary_zero_sign .MEM_IMMEDIATE
    (sampleCPU [0x01] 0xFF 0 0 0 false false) rfl
  ⟨Bool.eq_false_iff.mpr (fun h => absurd (h1.1.mp h) (by decide)),
   h1.2.trans (by decide), h2.1.mpr (by decide), h2.2.trans (by decide)⟩

theorem and_0xf (v : Nat) : v &&& 0xf = v % 16 := by
  have h := Nat.and_pow_two_sub_one_eq_mod v 4
  norm_num at h
  exact h

/-- The register file after `opADC<M>` with the decimal flag set, in terms of
the operand byte, the accumulator and the carry-in before the call. -/
theorem opADC_decimal_registers (M : MemoryAddressingMode) (cpu : CPU)
    (hd : cpu.registers.p.decimal = true) :
    (cpu.opADC M).registers =
      { cpu.registers with
        pc := (cpu.registers.pc + operandBytes M) % 65536
        a := decimalHigh cpu.registers.a (operand M cpu) (carryIn cpu) % 256
        p := { cpu.registers.p with
          zero := decide (((operand M cpu + cpu.registers.a + carryIn cpu) % 65536 &&& 0xff) % 256 = 0)
          sign := decide (((decimalLow cpu.registers.a (operand M cpu) (carryIn cpu) % 256)
            &&& BIT_7) ≠ 0)
          overflow := (decide (((cpu.registers.a ^^^ operand M cpu) &&& 0x80) = 0) &&
            decide (((cpu.registers.a ^^^
              decimalLow cpu.registers.a (operand M cpu) (carryIn cpu)) &&& 0x80) ≠ 0))
          carry := decide (decimalHigh cpu.registers.a (operand M cpu) (carryIn cpu) > 0x99) } } := by
  rcases h : cpu.getMemory M with ⟨src, cpu1⟩
  have h2 := getMemory_snd M cpu
  rw [h] at h2
  simp only at h2
  subst h2
  simp [CPU.opADC, h, operand, carryIn, CPU.setZero, CPU.setSign, CPU.setOverflow,
    CPU.setCarry, CPU.setA, hd, decimalLow, decimalHigh]

theorem decimal_arith (a o c : Nat) (ha1 : a / 16 ≤ 9) (ha2 : a % 16 ≤ 9)
    (ho1 : o / 16 ≤ 9) (ho2 : o % 16 ≤ 9) (hc : c ≤ 1) :
    decimalHigh a o c % 256 = bcdEncode ((bcdValue a + bcdValue o + c) % 100) ∧
    (decimalHigh a o c > 0x99 ↔ bcdValue a + bcdValue o + c ≥ 100) := by
  simp only [decimalHigh, decimalLow, and_0xf, bcdEncode, bcdValue]
  obtain ⟨ah, al, rfl, hal⟩ : ∃ ah al, a = 16 * ah + al ∧ al < 16 :=
    ⟨a / 16, a % 16, by omega, by omega⟩
  obtain ⟨oh, ol, rfl, hol⟩ : ∃ oh ol, o = 16 * oh + ol ∧ ol < 16 :=
    ⟨o / 16, o % 16, by omega, by omega⟩
  have e1 : (16 * ah + al) / 16 = ah := by omega
  have e2 : (16 * ah + al) % 16 = al := by omega
  have e3 : (16 * oh + ol) / 16 = oh := by omega
  have e4 : (16 * oh + ol) % 16 = ol := by omega
  simp only [e1, e2, e3, e4] at ha1 ha2 ho1 ho2 ⊢
  clear e1 e2 e3 e4
  have m1 : (16 * oh + ol + (16 * ah + al) + c) % 65536
      = 16 * oh + ol + (16 * ah + al) + c := Nat.mod_eq_of_lt (by omega)
  have m2 : (16 * oh + ol + (16 * ah + al) + c + 6) % 65536
      = 16 * oh + ol + (16 * ah + al) + c + 6 := Nat.mod_eq_of_lt (by omega)
  have m3 : (16 * oh + ol + (16 * ah + al) + c + 6 + 96) % 65536
      = 16 * oh + ol + (16 * ah + al) + c + 6 + 96 := Nat.mod_eq_of_lt (by omega)
  have m4 : (16 * oh + ol + (16 * ah + al) + c + 96) % 65536
      = 16 * oh + ol + (16 * ah + al) + c + 96 := Nat.mod_eq_of_lt (by omega)
  simp only [m1, m2, m3, m4]
  clear m1 m2 m3 m4
  by_cases hl : al + ol + c > 9
  · by_cases hh : ah + oh + 1 ≥ 10
    · have e5 : (10 * ah + al + (10 * oh + ol) + c) % 100 = 10 * (ah + oh + 1 - 10) + (al + ol + c - 10) := by omega
      have e6 : (10 * (ah + oh + 1 - 10) + (al + ol + c - 10)) / 10 = ah + oh + 1 - 10 := by omega
      have e7 : (10 * (ah + oh + 1 - 10) + (al + ol + c - 10)) % 10 = al + ol + c - 10 := by omega
      rw [e5, e6, e7]
      clear e5 e6 e7
      have hgt : 16 * oh + ol + (16 * ah + al) + c + 6 > 153 := by omega
      simp only [hl, hgt, if_true, if_false]
      refine ⟨by omega, ?_⟩
      omega
    · have e5 : (10 * ah + al + (10 * oh + ol) + c) % 100 = 10 * (ah + oh + 1) + (al + ol + c - 10) := by omega
      have e6 : (10 * (ah + oh + 1) + (al + ol + c - 10)) / 10 = ah + oh + 1 := by omega
      have e7 : (10 * (ah + oh + 1) + (al + ol + c - 10)) % 10 = al + ol + c - 10 := by omega
      rw [e5, e6, e7]
      clear e5 e6 e7
      have hgt : ¬ 16 * oh + ol + (16 * ah + al) + c + 6 > 153 := by omega
      simp only [hl, hgt, if_true, if_false]
      refine ⟨by omega, ?_⟩
      simp only [false_iff]
      omega
  · by_cases hh : ah + oh ≥ 10
    · have e5 : (10 * ah + al + (10 * oh + ol) + c) % 100 = 10 * (ah + oh - 10) + (al + ol + c) := by omega
      have e6 : (10 * (ah + oh - 10) + (al + ol + c)) / 10 = ah + oh - 10 := by omega
      have e7 : (10 * (ah + oh - 10) + (al + ol + c)) % 10 = al + ol + c := by omega
      rw [e5, e6, e7]
      clear e5 e6 e7
      have hgt : 16 * oh + ol + (16 * ah + al) + c > 153 := by omega
      simp only [hl, hgt, if_true, if_false]
      refine ⟨by omega, ?_⟩
      omega
    · have e5 : (10 * ah + al + (10 * oh + ol) + c) % 100 = 10 * (ah + oh) + (al + ol + c) := by omega
      have e6 : (10 * (ah + oh) + (al + ol + c)) / 10 = ah + oh := by omega
      have e7 : (10 * (ah + oh) + (al + ol + c)) % 10 = al + ol + c := by omega
      rw [e5, e6, e7]
      clear e5 e6 e7
      have hgt : ¬ 16 * oh + ol + (16 * ah + al) + c > 153 := by omega
      simp only [hl, hgt, if_true, if_false]
      refine ⟨by omega, ?_⟩
      simp only [false_iff]
      omega

/-- C4: with the decimal flag set, for a valid BCD accumulator and operand
denoting `da` and `do`, `opADC` leaves the BCD encoding of
`(da + do + c) mod 100` in the accumulator and sets the carry flag exactly
when `da + do + c >= 100`. -/
theorem opADC_decimal_bcd (M : MemoryAddressingMode) (cpu : CPU)
    (hd : cpu.registers.p.decimal = true)
    (ha : isBCD cpu.registers.a) (ho : isBCD (operand M cpu)) :
    (cpu.opADC M).registers.a =
      bcdEncode ((bcdValue cpu.registers.a + bcdValue (operand M cpu) + carryIn cpu) % 100) ∧
    ((cpu.opADC M).registers.p.carry = true ↔
      bcdValue cpu.registers.a + bcdValue (operand M cpu) + carryIn cpu ≥ 100) := by
  have hc := carryIn_le cpu
  have hr := opADC_decimal_registers M cpu hd
  rw [hr]
  simp only [decide_eq_true_eq]
  unfold isBCD at ha ho
  exact decimal_arith _ _ _ ha.1 ha.2 ho.1 ho.2 hc

/-- Witness of C4: `A = 0x99`, operand `0x01`, carry set gives `A = 0x01` with
the carry set; `A = 0x79`, operand `0x00`, carry set gives `A = 0x80`. -/
theorem opADC_decimal_bcd_witness :
    ((sampleCPU [0x01] 0x99 0 0 0 true true).opADC .MEM_IMMEDIATE).registers.a = 0x01 ∧
    ((sampleCPU [0x01] 0x99 0 0 0 true true).opADC .MEM_IMMEDIATE).registers.p.carry
      = true ∧
    ((sampleCPU [0x00] 0x79 0 0 0 true true).opADC .MEM_IMMEDIATE).registers.a = 0x80 :=
  have h1 := opADC_decimal_bcd .MEM_IMMEDIATE (sampleCPU [0x01] 0x99 0 0 0 true true)
    rfl (by decide) (by decide)
  have h2 := opADC_decimal_bcd .MEM_IMMEDIATE (sampleCPU [0x00] 0x79 0 0 0 true true)
    rfl (by decide) (by decide)
  ⟨h1.1.trans (by decide), h1.2.mpr (by decide), h2.1.trans (by decide)⟩

/-- C5: for every addressing mode, register state and memory content,
`getMemory<M>` advances `PC` by exactly the operand byte count of the mode
modulo 65536: 1 for Immediate, ZeroPage, ZeroPageIndexedX/Y and
IndirectIndexedX/Y, 2 for Absolute, AbsoluteIndexedX/Y, Indirect and
Relative. -/
theorem getMemory_advances_pc (M : MemoryAddressingMode) (cpu : CPU) :
    (cpu.getMemory M).2.registers.pc = (cpu.registers.pc + operandBytes M) % 65536 ∧
    (operandBytes M = 1 ↔ M ∈ [.MEM_IMMEDIATE, .MEM_ZERO_PAGE_ABSOLUTE,
      .MEM_ZERO_PAGE_INDEXED_X, .MEM_ZERO_PAGE_INDEXED_Y, .MEM_PRE_INDEXED_INDIRECT,
      .MEM_POST_INDEXED_INDIRECT]) ∧
    (operandBytes M = 2 ↔ M ∈ [.MEM_ABSOLUTE, .MEM_INDEXED_X, .MEM_INDEXED_Y,
      .MEM_INDIRECT, .MEM_RELATIVE]) := by
  refine ⟨?_, ?_, ?_⟩
  · rw [getMemory_snd]
  · cases M <;> simp [operandBytes]
  · cases M <;> simp [operandBytes]

/-- C6, the code at the failing input: with operand byte `0xFF` and index 2,
`getMemory` for the zero-page indexed modes resolves to `0x101`, outside
page 0, where `(0xFF + 2) mod 256 = 0x01`. -/
theorem getMemory_zero_page_indexed_leaves_page_zero :
    ((sampleCPU [0xFF] 0 2 0 0 false false).getMemory
      .MEM_ZERO_PAGE_INDEXED_X).1.address = 0x101 ∧
    ((sampleCPU [0xFF] 0 0 2 0 false false).getMemory
      .MEM_ZERO_PAGE_INDEXED_Y).1.address = 0x101 ∧
    (0xFF + 2) % 256 = 0x01 := by
  decide

/-- C7, the code at the failing input: with operand byte `0xFF` and `X = 2`,
`getMemory` for the pre-indexed indirect mode fetches its pointer at
`0x101`, not at the page-0 address `(0xFF + 2) mod 256 = 0x01`. -/
theorem getMemory_pre_indexed_pointer_outside_page_zero :
    ((CPU.new probeMemory (sampleRegisters 0 2 0 0 false false)).getMemory
      .MEM_PRE_INDEXED_INDIRECT).1.address = probeMemory.readWord 0x101 ∧
    probeMemory.readWord 0x101 ≠ probeMemory.readWord ((0xFF + 2) % 256) := by
  decide

/-- C8: for consecutive operand bytes `d` (fetched first) and `s` (fetched
second), Relative mode resolves to `(s + d) mod 65536` when `d < 0x80` and to
`(s + d - 0x100) mod 65536` when `d >= 0x80`, that is `s` plus `d` read as a
signed 8-bit displacement; `d = 0x05`, `s = 0x10` gives `0x15`, and `0x85`
counts as `-123`. -/
theorem getMemory_relative (cpu : CPU) :
    ((cpu.getMemory .MEM_RELATIVE).1.address : Int) =
      ((cpu.memory.readByte ((cpu.registers.pc + 1) % 65536) : Int) +
        signed8 (cpu.memory.readByte cpu.registers.pc)) % 65536 ∧
    ((sampleCPU [0x05, 0x10] 0 0 0 0 false false).getMemory .MEM_RELATIVE).1.address
      = 0x15 ∧
    signed8 0x85 = -123 := by
  refine ⟨?_, by decide, by decide⟩
  have hd : cpu.memory.readByte cpu.registers.pc < 256 := Nat.mod_lt _ (by decide)
  have hs : cpu.memory.readByte ((cpu.registers.pc + 1) % 65536) < 256 :=
    Nat.mod_lt _ (by decide)
  simp only [CPU.getMemory, CPU.getImmediate8, signed8]
  generalize cpu.memory.readByte cpu.registers.pc = d at *
  generalize cpu.memory.readByte ((cpu.registers.pc + 1) % 65536) = s at *
  split
  · simp only [MemoryAccess.new]
    omega
  · simp only [MemoryAccess.new]
    omega

set_option maxRecDepth 100000

/-- C9, the code at the failing input: the constructor leaves the slots of the
legal encodings `0x6D` (ADC Absolute) and `0x7D` (ADC AbsoluteIndexedX) at
`nullptr` and binds these two handlers at `0x60` and `0x70`, which are not
ADC encodings; the other six encodings are bound as listed. -/
theorem buildOpcodes_adc_absolute_misplaced :
    CPU.buildOpcodes[0x6D]? = some OpcodeEntry.null ∧
    CPU.buildOpcodes[0x7D]? = some OpcodeEntry.null ∧
    CPU.buildOpcodes[0x60]? = some (.bound (.opADC .MEM_ABSOLUTE)) ∧
    CPU.buildOpcodes[0x70]? = some (.bound (.opADC .MEM_INDEXED_X)) ∧
    (0x60, MemoryAddressingMode.MEM_ABSOLUTE) ∉ legalADC ∧
    (0x70, MemoryAddressingMode.MEM_INDEXED_X) ∉ legalADC ∧
    (∀ e ∈ legalADC, e.1 ≠ 0x6D → e.1 ≠ 0x7D →
      CPU.buildOpcodes[e.1]? = some (.bound (.opADC e.2))) := by
  decide

/-- C10: when the table slot of the fetched opcode byte `b` has no bound
handler, executing one instruction fails with the unimplemented-opcode
condition carrying `b` and the program counter as it stands after the opcode
fetch; it does not proceed to a next state. -/
theorem step_unimplemented_opcode (cpu : CPU) (b : Nat)
    (hb : cpu.memory.readByte cpu.registers.pc = b)
    (hslot : ∀ h, cpu.opcodes[b]? ≠ some (.bound h)) :
    cpu.step = .error (.unimplementedOpcode b ((cpu.registers.pc + 1) % 65536)) ∧
    ∀ cpu1, cpu.step ≠ .ok cpu1 := by
  have hstep : cpu.step
      = .error (.unimplementedOpcode b ((cpu.registers.pc + 1) % 65536)) := by
    simp only [CPU.step, CPU.getImmediate8, hb]
  refine ⟨hstep, ?_⟩
  intro cpu1 h
  rw [hstep] at h
  cases h

/-- Witness of C10: opcode byte `0x00` on a freshly constructed CPU. -/
theorem step_unimplemented_opcode_witness :
    (sampleCPU [0x00] 0 0 0 0 false false).step
      = .error (.unimplementedOpcode 0x00 1) :=
  (step_unimplemented_opcode (sampleCPU [0x00] 0 0 0 0 false false) 0x00 (by decide)
    (fun h hh => by
      have e : (sampleCPU [0x00] 0 0 0 0 false false).opcodes[0x00]?
          = some OpcodeEntry.null := by decide
      rw [e] at hh
      cases hh)).1

/-- C11: after construction the opcode table has 256 slots, every slot holds
either a handler or the `nullptr` marker written by the initialisation loop
(none is left uninitialised), exactly eight slots are bound and the other
248 hold the marker. -/
theorem buildOpcodes_total (memory : Memory) (registers : Registers) :
    (CPU.new memory registers).opcodes.length = 256 ∧
    (∀ b : Fin 256,
      (((CPU.new memory registers).opcodes.getD b.val .uninitialised).isBound ||
        ((CPU.new memory registers).opcodes.getD b.val .uninitialised).isNull) = true) ∧
    (CPU.new memory registers).opcodes.countP OpcodeEntry.isUninitialised = 0 ∧
    (CPU.new memory registers).opcodes.countP OpcodeEntry.isBound = 8 ∧
    (CPU.new memory registers).opcodes.countP OpcodeEntry.isNull = 248 := by
  show CPU.buildOpcodes.length = 256 ∧
    (∀ b : Fin 256,
      ((CPU.buildOpcodes.getD b.val .uninitialised).isBound ||
        (CPU.buildOpcodes.getD b.val .uninitialised).isNull) = true) ∧
    CPU.buildOpcodes.countP OpcodeEntry.isUninitialised = 0 ∧
    CPU.buildOpcodes.countP OpcodeEntry.isBound = 8 ∧
    CPU.buildOpcodes.countP OpcodeEntry.isNull = 248
  decide

/-- C12: the modes that add an index register to a 16-bit base wrap modulo
65536: AbsoluteIndexedX / AbsoluteIndexedY resolve to `(w + X) mod 65536` /
`(w + Y) mod 65536` for the operand word `w`, and IndirectIndexedY resolves
to `(p + Y) mod 65536` where `p` is the word the bus returns for the page-0
address given by the operand byte (the index is added after the
indirection). -/
theorem getMemory_indexed_16bit (cpu : CPU) :
    (cpu.getMemory .MEM_INDEXED_X).1.address
      = (cpu.memory.readWord cpu.registers.pc + cpu.registers.x) % 65536 ∧
    (cpu.getMemory .MEM_INDEXED_Y).1.address
      = (cpu.memory.readWord cpu.registers.pc + cpu.registers.y) % 65536 ∧
    (cpu.getMemory .MEM_POST_INDEXED_INDIRECT).1.address
      = (cpu.memory.readWord (cpu.memory.readByte cpu.registers.pc) + cpu.registers.y)
          % 65536 ∧
    cpu.memory.readByte cpu.registers.pc < 0x100 := by
  refine ⟨rfl, rfl, rfl, ?_⟩
  exact Nat.mod_lt _ (by decide)

theorem and_0xFF00 (pc : Nat) (h : pc < 65536) : pc &&& 0xFF00 = 256 * (pc / 256) := by
  apply Nat.eq_of_testBit_eq
  intro j
  have hh : pc / 256 < 2 ^ 8 := by omega
  have e1 : (0xFF00 : Nat) = 2 ^ 8 * (2 ^ 8 - 1) := by norm_num
  have e2 : (256 : Nat) = 2 ^ 8 := by norm_num
  have e3 : pc = 2 ^ 8 * (pc / 256) + pc % 256 := by omega
  have hl : pc % 256 < 2 ^ 8 := by omega
  rw [Nat.testBit_and, e1, e2, Nat.testBit_mul_pow_two, Nat.testBit_mul_pow_two,
    Nat.testBit_two_pow_sub_one]
  conv => lhs; rw [e3, Nat.testBit_mul_pow_two_add _ hl]
  by_cases hj : j < 8
  · have : ¬ j ≥ 8 := by omega
    simp [this]
  · have h8 : j ≥ 8 := by omega
    simp only [hj, if_false, h8, decide_True, Bool.true_and]
    by_cases hj2 : j - 8 < 8
    · simp [hj2]
    · have : (pc / 256).testBit (j - 8) = false := by
        apply Nat.testBit_lt_two_pow
        calc pc / 256 < 2 ^ 8 := hh
          _ ≤ 2 ^ (j - 8) := Nat.pow_le_pow_right (by decide) (by omega)
      simp [this]

theorem pc_low_write (pc v : Nat) (h : pc < 65536) (hv : v < 256) :
    pc / 256 * 256 + v = (pc &&& 0xFF00) ||| v := by
  rw [and_0xFF00 pc h]
  have hv2 : v < 2 ^ 8 := by omega
  have := Nat.mul_add_lt_is_or hv2 (pc / 256)
  norm_num at this
  omega

theorem raw_ofRaw_fin : ∀ v : Fin 256, (StatusRegister.ofRaw v.val).raw = v.val := by
  decide

theorem raw_ofRaw (v : Nat) (hv : v < 256) : (StatusRegister.ofRaw v).raw = v :=
  raw_ofRaw_fin ⟨v, hv⟩

/-- C13: a write through a register view changes exactly its target: for
every target `R`, register state and byte `v`, assigning `v` through
`RegisterAccess<R>` leaves every register other than `R` unchanged, and for
`R = PC` the new 16-bit `PC` is `(old PC & 0xFF00) | v`, the high byte being
kept. -/
theorem RegisterAccess_assign_frame (R : Register) (registers : Registers) (v : Nat)
    (hv : v < 256) (hpc : registers.pc < 65536) :
    (R ≠ .REGISTER_A → (RegisterAccess.assign R registers v).a = registers.a) ∧
    (R ≠ .REGISTER_X → (RegisterAccess.assign R registers v).x = registers.x) ∧
    (R ≠ .REGISTER_Y → (RegisterAccess.assign R registers v).y = registers.y) ∧
    (R ≠ .REGISTER_S → (RegisterAccess.assign R registers v).s = registers.s) ∧
    (R ≠ .REGISTER_PC → (RegisterAccess.assign R registers v).pc = registers.pc) ∧
    (R ≠ .REGISTER_P → (RegisterAccess.assign R registers v).p = registers.p) ∧
    (RegisterAccess.assign .REGISTER_PC registers v).pc
      = ((registers.pc &&& 0xFF00) ||| v) ∧
    (RegisterAccess.assign .REGISTER_PC registers v).pc / 256 = registers.pc / 256 := by
  refine ⟨?_, ?_, ?_, ?_, ?_, ?_, ?_, ?_⟩
  · cases R <;> simp [RegisterAccess.assign]
  · cases R <;> simp [RegisterAccess.assign]
  · cases R <;> simp [RegisterAccess.assign]
  · cases R <;> simp [RegisterAccess.assign]
  · cases R <;> simp [RegisterAccess.assign]
  · cases R <;> simp [RegisterAccess.assign]
  · simp only [RegisterAccess.assign, Nat.mod_eq_of_lt hv]
    exact pc_low_write _ _ hpc hv
  · simp only [RegisterAccess.assign]
    omega

/-- Witness of C13: writing `0x34` through the `PC` view of a register file
with `PC = 0x12FF` gives `PC = 0x1234` and leaves `A` alone. -/
theorem RegisterAccess_assign_frame_witness :
    (RegisterAccess.assign .REGISTER_PC (sampleRegisters 0x50 1 2 0x12FF false false)
      0x34).pc = ((0x12FF &&& 0xFF00) ||| 0x34) ∧
    (RegisterAccess.assign .REGISTER_PC (sampleRegisters 0x50 1 2 0x12FF false false)
      0x34).a = 0x50 :=
  have h := RegisterAccess_assign_frame .REGISTER_PC
    (sampleRegisters 0x50 1 2 0x12FF false false) 0x34 (by decide) (by decide)
  ⟨h.2.2.2.2.2.2.1, h.1 (by decide)⟩

/-- C14: write/read round trip of a register view: for every target `R`,
register state and byte `v`, assigning `v` through `RegisterAccess<R>` and
reading the same view gives back `v`; for `R = P` the whole status byte comes
back bit for bit, and for `R = PC` what is read back is the low byte of
`PC`. -/
theorem RegisterAccess_read_assign (R : Register) (registers : Registers) (v : Nat)
    (hv : v < 256) :
    RegisterAccess.read R (RegisterAccess.assign R registers v) = v ∧
    (RegisterAccess.assign .REGISTER_P registers v).p.raw = v ∧
    (RegisterAccess.assign .REGISTER_PC registers v).pc % 256 = v := by
  refine ⟨?_, ?_, ?_⟩
  · cases R <;>
      simp only [RegisterAccess.read, RegisterAccess.assign, Nat.mod_eq_of_lt hv]
    · omega
    · exact raw_ofRaw v hv
  · simp only [RegisterAccess.assign, Nat.mod_eq_of_lt hv]
    exact raw_ofRaw v hv
  · simp only [RegisterAccess.assign]
    omega

/-- Witness of C14: the status byte `0xFF` written through the `P` view reads
back as `0xFF`; `0x34` written through the `PC` view reads back as `0x34`. -/
theorem RegisterAccess_read_assign_witness :
    RegisterAccess.read .REGISTER_P (RegisterAccess.assign .REGISTER_P
      (sampleRegisters 0x50 1 2 0x12FF false false) 0xFF) = 0xFF ∧
    RegisterAccess.read .REGISTER_PC (RegisterAccess.assign .REGISTER_PC
      (sampleRegisters 0x50 1 2 0x12FF false false) 0x34) = 0x34 :=
  ⟨(RegisterAccess_read_assign .REGISTER_P
      (sampleRegisters 0x50 1 2 0x12FF false false) 0xFF (by decide)).1,
   (RegisterAccess_read_assign .REGISTER_PC
      (sampleRegisters 0x50 1 2 0x12FF false false) 0x34 (by decide)).1⟩

theorem decimalLow_eq_intermediate (a o c : Nat) (ha : a < 256) (ho : o < 256)
    (hc : c ≤ 1) : decimalLow a o c = decimalIntermediate a o c := by
  unfold decimalLow decimalIntermediate
  split <;> omega

theorem and_0x80_ne_zero (v : Nat) : (v &&& 0x80 ≠ 0) ↔ v.testBit 7 = true := by
  rw [testBit7, ne_eq, and_0x80_eq_zero]
  simp only [decide_eq_true_eq]
  omega

theorem testBit7_mod_256 (v : Nat) : (v % 256).testBit 7 = v.testBit 7 := by
  rw [testBit7, testBit7]
  congr 1
  apply propext
  omega

theorem testBit7_xor (v w : Nat) : (v ^^^ w).testBit 7 = (v.testBit 7 != w.testBit 7) :=
  Nat.testBit_xor v w 7

/-- C15: in decimal mode the sign and overflow flags come from the
intermediate value `t = a + o + c` (plus 6 when the low-nibble sum exceeds
9), not from the final accumulator: the sign flag is bit 7 of `t`, and the
overflow flag is set exactly when `a` and `o` have equal bit 7 and bit 7 of
`t` differs from bit 7 of `a`. -/
theorem opADC_decimal_sign_overflow (M : MemoryAddressingMode) (cpu : CPU)
    (ha : cpu.registers.a < 256) (hd : cpu.registers.p.decimal = true) :
    (cpu.opADC M).registers.p.sign
      = (decimalIntermediate cpu.registers.a (operand M cpu) (carryIn cpu)).testBit 7 ∧
    ((cpu.opADC M).registers.p.overflow = true ↔
      (cpu.registers.a.testBit 7 = (operand M cpu).testBit 7 ∧
        (decimalIntermediate cpu.registers.a (operand M cpu) (carryIn cpu)).testBit 7
          ≠ cpu.registers.a.testBit 7)) := by
  have ho := operand_lt M cpu
  have hc := carryIn_le cpu
  have hr := opADC_decimal_registers M cpu hd
  have hl := decimalLow_eq_intermediate _ _ _ ha ho hc
  rw [hr, hl]
  simp only [BIT_7, Bool.and_eq_true, decide_eq_true_eq]
  generalize decimalIntermediate cpu.registers.a (operand M cpu) (carryIn cpu) = t
  constructor
  · rw [← testBit7_mod_256 t]
    cases hb : (t % 256).testBit 7
    · rw [decide_eq_false_iff_not, and_0x80_ne_zero, hb]
      simp
    · rw [decide_eq_true_eq, and_0x80_ne_zero, hb]
  · have e : ((cpu.registers.a ^^^ operand M cpu) &&& 0x80 = 0)
        ↔ ¬ ((cpu.registers.a ^^^ operand M cpu) &&& 0x80 ≠ 0) := by
      simp
    rw [and_0x80_ne_zero, testBit7_xor, e, and_0x80_ne_zero, testBit7_xor]
    cases cpu.registers.a.testBit 7 <;> cases (operand M cpu).testBit 7 <;>
      cases t.testBit 7 <;> simp

/-- Witness of C15: `A = 0x79`, operand `0x00`, carry set: `t = 0x80`, so the
sign flag is set and the overflow flag is set (both inputs have bit 7 clear,
`t` has it set). -/
theorem opADC_decimal_sign_overflow_witness :
    ((sampleCPU [0x00] 0x79 0 0 0 true true).opADC .MEM_IMMEDIATE).registers.p.sign
      = true ∧
    ((sampleCPU [0x00] 0x79 0 0 0 true true).opADC .MEM_IMMEDIATE).registers.p.overflow
      = true :=
  have h := opADC_decimal_sign_overflow .MEM_IMMEDIATE
    (sampleCPU [0x00] 0x79 0 0 0 true true) (by decide) rfl
  ⟨h.1.trans (by decide), h.2.mpr (by decide)⟩

/-- C16: in decimal mode the carry flag reflects the value before the high
correction: with `t = a + o + c` (plus 6 when the low-nibble sum exceeds 9),
the carry flag is set exactly when `t > 0x99`, and the accumulator is
`(t + 96) mod 256` when `t > 0x99` and `t mod 256` otherwise. -/
theorem opADC_decimal_carry (M : MemoryAddressingMode) (cpu : CPU)
    (ha : cpu.registers.a < 256) (hd : cpu.registers.p.decimal = true) :
    ((cpu.opADC M).registers.p.carry = true ↔
      decimalIntermediate cpu.registers.a (operand M cpu) (carryIn cpu) > 0x99) ∧
    (cpu.opADC M).registers.a =
      (if decimalIntermediate cpu.registers.a (operand M cpu) (carryIn cpu) > 0x99
        then (decimalIntermediate cpu.registers.a (operand M cpu) (carryIn cpu) + 96) % 256
        else decimalIntermediate cpu.registers.a (operand M cpu) (carryIn cpu) % 256) := by
  have ho := operand_lt M cpu
  have hc := carryIn_le cpu
  have hr := opADC_decimal_registers M cpu hd
  have hl := decimalLow_eq_intermediate _ _ _ ha ho hc
  have ht : decimalIntermediate cpu.registers.a (operand M cpu) (carryIn cpu) ≤ 517 := by
    unfold decimalIntermediate
    split <;> omega
  rw [hr]
  simp only [decimalHigh, hl, decide_eq_true_eq]
  generalize decimalIntermediate cpu.registers.a (operand M cpu) (carryIn cpu) = t at *
  constructor
  · split <;> omega
  · split <;> omega

/-- Witness of C16: `A = 0x99`, operand `0x01`, carry set: `t = 0xA1 > 0x99`,
so the carry flag is set and the accumulator is `(0xA1 + 96) mod 256 = 0x01`. -/
theorem opADC_decimal_carry_witness :
    ((sampleCPU [0x01] 0x99 0 0 0 true true).opADC .MEM_IMMEDIATE).registers.p.carry
      = true ∧
    ((sampleCPU [0x01] 0x99 0 0 0 true true).opADC .MEM_IMMEDIATE).registers.a = 0x01 :=
  have h := opADC_decimal_carry .MEM_IMMEDIATE
    (sampleCPU [0x01] 0x99 0 0 0 true true) (by decide) rfl
  ⟨h.1.mpr (by decide), h.2.trans (by decide)⟩

/-- C17: in binary and in decimal mode alike the zero flag is taken from the
uncorrected binary sum: after `opADC` it is set exactly when
`(a + o + c) mod 256 = 0`, whatever BCD correction the accumulator receives;
in decimal mode `A = 0x99`, operand `0x01`, carry clear leaves `A = 0x00`
with the zero flag clear. -/
theorem opADC_zero_from_binary_sum (M : MemoryAddressingMode) (cpu : CPU) :
    ((cpu.opADC M).registers.p.zero = true ↔
      (cpu.registers.a + operand M cpu + carryIn cpu) % 256 = 0) ∧
    ((sampleCPU [0x01] 0x99 0 0 0 false true).opADC .MEM_IMMEDIATE).registers.a = 0x00 ∧
    ((sampleCPU [0x01] 0x99 0 0 0 false true).opADC .MEM_IMMEDIATE).registers.p.zero
      = false := by
  refine ⟨?_, by decide, by decide⟩
  cases hd : cpu.registers.p.decimal
  · rw [opADC_binary_registers M cpu hd]
    simp only [decide_eq_true_eq, and_0xff]
    omega
  · rw [opADC_decimal_registers M cpu hd]
    simp only [decide_eq_true_eq, and_0xff]
    omega

/-- C18: in binary mode the overflow flag is the two's-complement overflow
indicator: after `opADC` it is set exactly when `sa + so + c` lies outside
`-128..127`, with `sa` and `so` the accumulator and the operand read as
signed 8-bit integers. -/
theorem opADC_binary_signed_overflow (M : MemoryAddressingMode) (cpu : CPU)
    (ha : cpu.registers.a < 256) (hd : cpu.registers.p.decimal = false) :
    (cpu.opADC M).registers.p.overflow = true ↔
      (signed8 cpu.registers.a + signed8 (operand M cpu) + (carryIn cpu : Int) < -128 ∨
        signed8 cpu.registers.a + signed8 (operand M cpu) + (carryIn cpu : Int) > 127) := by
  have ho := operand_lt M cpu
  have hc := carryIn_le cpu
  rw [opADC_binary_registers M cpu hd]
  simp only [Bool.and_eq_true, decide_eq_true_eq, ne_eq, and_0x80_eq_zero, xor_bit7,
    signed8]
  generalize cpu.registers.a = a at *
  generalize operand M cpu = o at *
  generalize carryIn cpu = c at *
  split <;> split <;> omega

/-- Witness of C18: `A = 0x7F`, operand `0x00`, carry set: `127 + 0 + 1 = 128`
is out of range and the overflow flag is set. -/
theorem opADC_binary_signed_overflow_witness :
    ((sampleCPU [0x00] 0x7F 0 0 0 true false).opADC .MEM_IMMEDIATE).registers.p.overflow
      = true :=
  (opADC_binary_signed_overflow .MEM_IMMEDIATE (sampleCPU [0x00] 0x7F 0 0 0 true false)
    (by decide) rfl).mpr (by decide)

theorem opADC_memory (M : MemoryAddressingMode) (cpu : CPU) :
    (cpu.opADC M).memory = cpu.memory ∧ (cpu.opADC M).opcodes = cpu.opcodes := by
  rcases h : cpu.getMemory M with ⟨src, cpu1⟩
  have h2 := getMemory_snd M cpu
  rw [h] at h2
  simp only at h2
  subst h2
  simp only [CPU.opADC, h, CPU.setZero, CPU.setSign, CPU.setOverflow, CPU.setCarry,
    CPU.setA]
  split <;> exact ⟨rfl, rfl⟩

/-- C19: frame of add-with-carry: for every addressing mode, register state
and either value of the decimal flag, `opADC` leaves `X`, `Y`, `S`, the
decimal, interrupt-disable and break flags and the bus unchanged; only `A`,
the carry, zero, sign and overflow flags and `PC` can change, and `PC`
advances by exactly the operand byte count of the addressing mode. -/
theorem opADC_frame (M : MemoryAddressingMode) (cpu : CPU) :
    (cpu.opADC M).registers.x = cpu.registers.x ∧
    (cpu.opADC M).registers.y = cpu.registers.y ∧
    (cpu.opADC M).registers.s = cpu.registers.s ∧
    (cpu.opADC M).registers.p.decimal = cpu.registers.p.decimal ∧
    (cpu.opADC M).registers.p.interrupt = cpu.registers.p.interrupt ∧
    (cpu.opADC M).registers.p.brk = cpu.registers.p.brk ∧
    (cpu.opADC M).registers.p.unused = cpu.registers.p.unused ∧
    (cpu.opADC M).memory = cpu.memory ∧
    (cpu.opADC M).opcodes = cpu.opcodes ∧
    (cpu.opADC M).registers.pc = (cpu.registers.pc + operandBytes M) % 65536 := by
  have hm := opADC_memory M cpu
  cases hd : cpu.registers.p.decimal
  · rw [opADC_binary_registers M cpu hd]
    exact ⟨rfl, rfl, rfl, hd.symm ▸ rfl, rfl, rfl, rfl, hm.1, hm.2, rfl⟩
  · rw [opADC_decimal_registers M cpu hd]
    exact ⟨rfl, rfl, rfl, hd.symm ▸ rfl, rfl, rfl, rfl, hm.1, hm.2, rfl⟩

end NES
